import Mathlib

/-!
Shallow embedding of the quiz web application (src/index.js) and proofs about it.

The program is a Node/Express prototype: a continuation registry keyed by uuid
tokens (lines 12-52), a question-type registry with "free" and "multiple"
variants (lines 56-105), a load/new/manage authoring flow (lines 107-132),
a JSON data-URI exporter (lines 134-137) and a play loop (lines 139-179).

JavaScript run-time behaviour is modelled explicitly:
- a value that may be a string, a number or `undefined` is a `JSValue`;
- an expression that can throw returns `Except JsError _`
  (`.typeError` for TypeError, `.parseError` for a JSON SyntaxError);
- loose equality `==`, `String.prototype.toLowerCase`, string `ToNumber`
  coercion and `Array.prototype.reduce` without an initial value follow the
  ECMAScript semantics on the value shapes the program actually produces.
-/

/-!
Serialization. Line 122 builds the download link with
`jsonToDataURI(JSON.stringify(quiz))` and lines 134-137 prepend
`data:application/json;base64,` to the base64 encoding of the JSON text's
bytes (`Buffer.from(json).toString("base64")`). The `/load` route parses
the uploaded file's bytes with `JSON.parse` (line 109). The platform pieces
(JSON.stringify / JSON.parse on the quiz document shape, UTF-8, base64, the
browser's decoding of a data: URI into the saved file) are standard
behaviour and are modelled here character- and byte-exactly.
-/

/-- Kinds of exception the embedded code can throw. -/
inductive JsError where
  | typeError
  | parseError
deriving DecidableEq

/-- JavaScript values flowing through the program: query-string fields are
either absent (`undef`) or strings; the spec's marking examples also use
numbers. -/
inductive JSValue where
  | undef
  | num (n : Int)
  | str (s : String)
deriving DecidableEq

/-- Whitespace accepted by the `ToNumber` string coercion (model). -/
def jsWs (c : Char) : Bool :=
  c == ' ' || c == '\t' || c == '\n' || c == '\r'

/-- Trim leading and trailing whitespace from a character list. -/
def trimChars (l : List Char) : List Char :=
  ((l.dropWhile jsWs).reverse.dropWhile jsWs).reverse

/-- Numeric value of a digit string. -/
def natOfDigits (l : List Char) : Nat :=
  l.foldl (fun n c => n * 10 + (c.toNat - 48)) 0

/-- Value of a nonempty all-digit character list, else `none` (NaN). -/
def digitsToInt (l : List Char) : Option Int :=
  if l = [] then none
  else if l.all Char.isDigit then some ((natOfDigits l : Int)) else none

/-- Model of ECMAScript `ToNumber` on strings, restricted to the integer
literals the program compares (an all-whitespace string is 0, an optionally
signed digit string is its value, anything else is NaN, i.e. `none`). -/
def jsToNumber (s : String) : Option Int :=
  match trimChars s.data with
  | [] => some 0
  | '-' :: ds => (digitsToInt ds).map (fun n => -n)
  | '+' :: ds => digitsToInt ds
  | ds => digitsToInt ds

/-- Model of JavaScript loose equality `==` on the value shapes above:
number/number and string/string compare directly, number/string converts the
string with `ToNumber` (NaN compares unequal), `undefined` equals only
`undefined`. -/
def looseEq : JSValue → JSValue → Bool
  | .undef, .undef => true
  | .num a, .num b => a == b
  | .str a, .str b => a == b
  | .num a, .str s =>
    match jsToNumber s with
    | some m => a == m
    | none => false
  | .str s, .num a =>
    match jsToNumber s with
    | some m => m == a
    | none => false
  | _, _ => false

/-- ASCII model of `String.prototype.toLowerCase`. -/
def lowerStr (s : String) : String :=
  String.mk (s.data.map Char.toLower)

/-- Calling `.toLowerCase()` on a value: only strings have the method;
on `undefined` (a missing query field) or a number it throws a TypeError. -/
def jsToLowerCase : JSValue → Except JsError String
  | .str s => .ok (lowerStr s)
  | _ => .error .typeError

/-- Embeds line 85: `(question, answer) => question.answer.toLowerCase() ===
answer.toLowerCase()`. The first argument is the question's stored `answer`
field, the second the submitted answer. -/
def markFree (questionAnswer answer : JSValue) : Except JsError Bool := do
  let qa ← jsToLowerCase questionAnswer
  let ans ← jsToLowerCase answer
  .ok (qa == ans)

/-- Embeds line 104: `(question, answer) => question.answer == answer`
(loose equality; never throws). -/
def markMultiple (questionAnswer answer : JSValue) : Except JsError Bool :=
  .ok (looseEq questionAnswer answer)

/-- One registered question variant. The embedding keeps the fields the
verified claims depend on: the `type` tag stored by `registerQuestionType`
(line 60), the `present` template (lines 83 and 101) and the `mark`
function; `name`, `description`, `overview` and the interactive `create`
sub-dialog are not consulted by any claim. -/
structure QTypeDef where
  type : String
  present : String
  mark : JSValue → JSValue → Except JsError Bool

/-- Embeds lines 58-71: `questionTypes[typename] = { type: typename, ... }`.
Property assignment on a plain object keeps the position of an existing key
and appends a new key in insertion order. -/
def registerQuestionType (reg : List (String × QTypeDef)) (typename : String)
    (methods : QTypeDef) : List (String × QTypeDef) :=
  let entry := { methods with type := typename }
  if reg.any (fun p => p.1 == typename) then
    reg.map (fun p => if p.1 == typename then (typename, entry) else p)
  else
    reg ++ [(typename, entry)]

/-- Embeds lines 73-105: the two `registerQuestionType` calls populating the
registry with the "free" and "multiple" variants. -/
def questionTypes : List (String × QTypeDef) :=
  registerQuestionType
    (registerQuestionType []
      "free" { type := "free", present := "present-free-text.pug", mark := markFree })
    "multiple" { type := "multiple", present := "present-multiple-choice.pug", mark := markMultiple }

/-- Outcome of one iteration of the `manageQuiz` overview loop (lines
119-132). `abort` models an exception escaping the async function, which
ends that session's step with an unhandled rejection. -/
inductive AuthorOutcome where
  | abort (e : JsError)
  | enterCreate (typename : String)
  | play
  | idle
deriving DecidableEq

/-- Fields of the resumption input consulted by the overview loop:
`req.query.addQuestion` and `req.query.playQuiz` truthiness, and
`req.query.type`. An absent `type` behaves like any unregistered name. -/
structure OverviewInput where
  addQuestion : Bool
  type : String
  playQuiz : Bool

/-- Embeds one iteration of lines 119-132: with `addQuestion` set the code
evaluates `questionTypes[req.query.type].create(req, res)`; when the name is
not a registered variant the lookup yields no variant record and the
dispatch throws a TypeError (for names inherited from `Object.prototype`,
such as "constructor", the lookup finds a non-variant value and the
dispatched call throws a TypeError instead — the step still aborts). -/
def manageQuizStep (inp : OverviewInput) : AuthorOutcome :=
  if inp.addQuestion then
    match List.lookup inp.type questionTypes with
    | some v => .enterCreate v.type
    | none => .abort .typeError
  else if inp.playQuiz then .play
  else .idle

/-- One entry of the `stats` array built by the play loop (lines 155-157);
the response time is modelled as the abstract number the loop computed. -/
structure PlayStat where
  correct : Bool
  responseTime : Nat
deriving DecidableEq

/-- Context of the finished-quiz template (lines 172-174). -/
structure PlaySummary where
  answersCorrect : Nat
  totalTime : Nat
  totalQuestions : Nat
deriving DecidableEq

/-- Model of `Array.prototype.reduce` with no initial value, as called on
lines 169-170: on an empty array it throws a TypeError ("Reduce of empty
array with no initial value"); otherwise it folds from the first element. -/
def jsReduce (f : Nat → Nat → Nat) : List Nat → Except JsError Nat
  | [] => .error .typeError
  | x :: xs => .ok (xs.foldl f x)

/-- Embeds lines 168-174: `answersCorrect` reduces the `correct` booleans
(coerced to numbers by `+`), `totalTime` reduces the response times, and the
summary records `stats.length` questions. -/
def summarize (stats : List PlayStat) : Except JsError PlaySummary := do
  let answersCorrect ← jsReduce (· + ·) (stats.map fun st => if st.correct then 1 else 0)
  let totalTime ← jsReduce (· + ·) (stats.map fun st => st.responseTime)
  .ok { answersCorrect := answersCorrect, totalTime := totalTime, totalQuestions := stats.length }

/-- Questions as the two creation flows build them (lines 78-81 and 95-99):
a free-text question stores `text` and `answer`; a multiple-choice question
stores `text`, the correct index as the `answer` string from the query, and
its choice texts. Both are tagged with their `type` on line 68. -/
inductive Question where
  | free (text answer : String)
  | multiple (text answer : String) (choices : List String)
deriving DecidableEq

/-- The quiz entity (line 115): a title and the ordered question list. -/
structure Quiz where
  title : String
  questions : List Question
deriving DecidableEq

/-- Tag stored in the question's `type` field. -/
def Question.typeName : Question → String
  | .free .. => "free"
  | .multiple .. => "multiple"

/-- The question's stored `answer` field as the JS value `mark` receives. -/
def Question.answerJS : Question → JSValue
  | .free _ a => .str a
  | .multiple _ a _ => .str a

/-- Embeds the per-question body of the play loop (lines 143-166): each
iteration suspends presenting the question, resumes with the submitted
`req.query.answer` (`undef` when the field is absent) and a response time,
and computes `correct` via `questionTypes[question.type].mark` (line 153).
`none` models a session whose next suspension is never resumed; a thrown
TypeError aborts the whole loop. The feedback suspension's resumption
carries no data the loop reads, so inputs are listed per question. -/
def playStats : List Question → List (JSValue × Nat) → Option (Except JsError (List PlayStat))
  | [], _ => some (.ok [])
  | _ :: _, [] => none
  | q :: qs, (ans, rt) :: ins =>
    match List.lookup q.typeName questionTypes with
    | none => some (.error .typeError)
    | some v =>
      match v.mark q.answerJS ans with
      | .error e => some (.error e)
      | .ok c => (playStats qs ins).map (fun r => r.map (fun tl => ⟨c, rt⟩ :: tl))

/-- Embeds one round of `playQuiz` (lines 139-174): run the loop over the
questions with the given resumption inputs, then compute the finished
summary. `some (.error e)` means the round threw `e` before the finished
template rendered; `none` means it is still suspended. -/
def playRound (quiz : Quiz) (ins : List (JSValue × Nat)) : Option (Except JsError PlaySummary) :=
  (playStats quiz.questions ins).map (fun r => r.bind summarize)

/-- State of the continuation registry (lines 12-14): the key list of the
`continuations` object (insertion order) and the `uuids` array. The stored
values are single-use promise resolvers; for the registry-level claims only
which keys are live matters, so the state keeps the keys. -/
structure RegState where
  continuations : List String
  uuids : List String
deriving DecidableEq

/-- Capacity constant of line 12. -/
def MAX_CONTINUATIONS : Nat := 100

/-- Embeds the `while` loop of lines 21-24: while more than
`MAX_CONTINUATIONS` uuids are tracked, shift the oldest and delete its
registry entry. -/
def evictLoop (uuids conts : List String) : List String × List String :=
  match uuids with
  | [] => ([], conts)
  | u :: rest =>
    if (u :: rest).length > MAX_CONTINUATIONS then evictLoop rest (conts.erase u)
    else (u :: rest, conts)

/-- Embeds `sendSuspend` (lines 16-30) for a freshly minted id. Line 18
reads `uuids.push[continuationID]`: it indexes the `push` function instead
of calling it, so the `uuids` array is left unchanged; the eviction loop is
then run on that unchanged array, and finally
`continuations[continuationID] = resolve` stores the resumption callback
(appending a new key, or keeping the position of an existing one). -/
def sendSuspend (s : RegState) (continuationID : String) : RegState :=
  let uuids := s.uuids
  let p := evictLoop uuids s.continuations
  { uuids := p.1
    continuations :=
      if continuationID ∈ p.2 then p.2 else p.2 ++ [continuationID] }

/-- Result of one request to `/continue/:continuationID`. `invoked` is the
branch that deletes the entry and calls the stored resolver; `inherited`
models a token that is no stored key but names a property inherited from
`Object.prototype` (for example "constructor"), where
`continuations[token] !== undefined` still holds, `delete` is a no-op, and
the inherited value is invoked in place of a stored continuation — no
expired notice is sent; `expired` is the line 51 notice. -/
inductive ContinueOutcome where
  | invoked
  | inherited
  | expired
deriving DecidableEq

/-- Property names every plain object inherits from `Object.prototype` in
Node (including the Annex B accessor-management methods), all of which make
`continuations[token] !== undefined` true. -/
def protoKeys : List String :=
  ["constructor", "hasOwnProperty", "isPrototypeOf", "propertyIsEnumerable",
   "toLocaleString", "toString", "valueOf", "__proto__",
   "__defineGetter__", "__defineSetter__", "__lookupGetter__", "__lookupSetter__"]

/-- Embeds the handler of lines 45-52. An own key (a stored continuation)
is deleted first and its resolver invoked once; a token naming an inherited
`Object.prototype` property takes the same defined branch but mutates
nothing; any other token takes the expired branch, which only sends the
notice. -/
def handleContinue (s : RegState) (tok : String) : RegState × ContinueOutcome :=
  if tok ∈ s.continuations then
    ({ s with continuations := s.continuations.erase tok }, .invoked)
  else if tok ∈ protoKeys then (s, .inherited)
  else (s, .expired)

/-- Requests that touch the registry: a suspension minting the given uuid
(line 17), or a resumption request bearing a token. -/
inductive RegEvent where
  | suspend (tok : String)
  | resume (tok : String)
deriving DecidableEq

/-- Run a request sequence and count how many of the resumption requests
bearing token `t` actually invoked a stored continuation. -/
def runCount (s : RegState) (t : String) : List RegEvent → Nat
  | [] => 0
  | .suspend u :: es => runCount (sendSuspend s u) t es
  | .resume u :: es =>
    let r := handleContinue s u
    (if r.2 = .invoked ∧ u = t then 1 else 0) + runCount r.1 t es

/-- Number of suspensions in the sequence that mint token `t`. -/
def mints (t : String) : List RegEvent → Nat
  | [] => 0
  | .suspend u :: es => (if u = t then 1 else 0) + mints t es
  | .resume _ :: es => mints t es

/-- Initial registry state (lines 13-14): both collections empty. -/
def regInit : RegState := { continuations := [], uuids := [] }

/-- Tokens of 101 successive suspensions (101 pairwise distinct ids). -/
def floodTokens : List String := (List.range 101).map (fun n => String.mk [Char.ofNat (65 + n)])

/-- Registry state after those 101 suspensions. -/
def floodState : RegState := floodTokens.foldl sendSuspend regInit

/-- Character list of a string literal. -/
def sLit (s : String) : List Char := s.data

/-- Lowercase hex digit, as `JSON.stringify` emits in escapes. -/
def hexDig (n : Nat) : Char :=
  if n < 10 then Char.ofNat (48 + n) else Char.ofNat (87 + n)

/-- Escaping of one character inside a JSON string literal, following
`JSON.stringify`: quote and backslash get a backslash escape, the five
short control escapes are used where they exist, remaining control
characters become `\u00xx`, and every other character is emitted as is. -/
def escChar (c : Char) : List Char :=
  if c = '"' then ['\\', '"']
  else if c = '\\' then ['\\', '\\']
  else if c = Char.ofNat 8 then ['\\', 'b']
  else if c = Char.ofNat 9 then ['\\', 't']
  else if c = Char.ofNat 10 then ['\\', 'n']
  else if c = Char.ofNat 12 then ['\\', 'f']
  else if c = Char.ofNat 13 then ['\\', 'r']
  else if c.toNat < 32 then
    ['\\', 'u', '0', '0', hexDig (c.toNat / 16), hexDig (c.toNat % 16)]
  else [c]

/-- Escape a whole character sequence. -/
def escStr : List Char → List Char
  | [] => []
  | c :: cs => escChar c ++ escStr cs

/-- JSON string literal for `s`. -/
def strJson (s : String) : List Char := '"' :: (escStr s.data ++ ['"'])

/-- Comma-separated JSON string literals. -/
def strsJson : List String → List Char
  | [] => []
  | s :: rest => strJson s ++ (if rest.isEmpty then [] else [',']) ++ strsJson rest

/-- JSON array of strings (the `choices` field). -/
def arrJson (cs : List String) : List Char := '[' :: (strsJson cs ++ [']'])

/-- Fields of one serialized question, in the insertion order the creation
flows produce (lines 78-81, 95-99 and 68): `text`, `answer`, for
multiple-choice also `choices`, then the `type` tag. -/
def qJsonFields : Question → List Char
  | .free t a =>
    sLit "\"text\":" ++ strJson t ++ sLit ",\"answer\":" ++ strJson a ++
      sLit ",\"type\":\"free\"\x7d"
  | .multiple t a cs =>
    sLit "\"text\":" ++ strJson t ++ sLit ",\"answer\":" ++ strJson a ++
      sLit ",\"choices\":" ++ arrJson cs ++ sLit ",\"type\":\"multiple\"\x7d"

/-- One serialized question object. -/
def qJson (q : Question) : List Char := '\x7b' :: qJsonFields q

/-- Comma-separated serialized questions. -/
def qsJson : List Question → List Char
  | [] => []
  | q :: rest => qJson q ++ (if rest.isEmpty then [] else [',']) ++ qsJson rest

/-- The serialized `questions` array. -/
def qsArrJson (qs : List Question) : List Char := '[' :: (qsJson qs ++ [']'])

/-- Model of `JSON.stringify(quiz)` (line 122) on the quiz object of line
115: keys in insertion order, no whitespace. -/
def quizJson (q : Quiz) : List Char :=
  sLit "\x7b\"title\":" ++ strJson q.title ++ sLit ",\"questions\":" ++
    qsArrJson q.questions ++ sLit "\x7d"

/-- Consume an expected literal character sequence. -/
def lit : List Char → List Char → Option (List Char)
  | [], s => some s
  | _ :: _, [] => none
  | p :: ps, c :: cs => if c = p then lit ps cs else none

/-- Consume the characters of a literal string. -/
def litS (pat : String) (s : List Char) : Option (List Char) := lit pat.data s

/-- Single-character JSON escapes accepted after a backslash. -/
def unescapeChar (e : Char) : Option Char :=
  if e = '"' then some '"'
  else if e = '\\' then some '\\'
  else if e = '/' then some '/'
  else if e = 'b' then some (Char.ofNat 8)
  else if e = 'f' then some (Char.ofNat 12)
  else if e = 'n' then some (Char.ofNat 10)
  else if e = 'r' then some (Char.ofNat 13)
  else if e = 't' then some (Char.ofNat 9)
  else none

/-- Value of one hex digit. -/
def hexVal (c : Char) : Option Nat :=
  if 48 ≤ c.toNat ∧ c.toNat ≤ 57 then some (c.toNat - 48)
  else if 97 ≤ c.toNat ∧ c.toNat ≤ 102 then some (c.toNat - 87)
  else if 65 ≤ c.toNat ∧ c.toNat ≤ 70 then some (c.toNat - 55)
  else none

/-- Prepend a parsed character to a string-parse result. -/
def consFst (c : Char) : Option (List Char × List Char) → Option (List Char × List Char)
  | some (s, r) => some (c :: s, r)
  | none => none

/-- Parse the body of a JSON string literal after its opening quote,
following `JSON.parse`: plain characters up to the closing quote, with
backslash escapes and `\uXXXX` code units. -/
def pstr : List Char → Option (List Char × List Char)
  | [] => none
  | c :: rest =>
    if c = '"' then some ([], rest)
    else if c = '\\' then
      match rest with
      | [] => none
      | e :: r1 =>
        if e = 'u' then
          match r1 with
          | h1 :: h2 :: h3 :: h4 :: r2 =>
            match hexVal h1, hexVal h2, hexVal h3, hexVal h4 with
            | some a, some b, some c2, some d =>
              consFst (Char.ofNat (((a * 16 + b) * 16 + c2) * 16 + d)) (pstr r2)
            | _, _, _, _ => none
          | _ => none
        else
          match unescapeChar e with
          | some u => consFst u (pstr r1)
          | none => none
    else consFst c (pstr rest)

/-- Parse a complete JSON string literal including its opening quote. -/
def pJStr : List Char → Option (List Char × List Char)
  | [] => none
  | c :: r => if c = '"' then pstr r else none

/-- Parse the elements of a nonempty JSON string array after its opening
bracket; the fuel argument only bounds the recursion and is instantiated
with the input length, which always suffices. -/
def pStrsTailF : Nat → List Char → Option (List (List Char) × List Char)
  | 0, _ => none
  | fuel + 1, s =>
    match pJStr s with
    | some (x, c :: r2) =>
      if c = ',' then (pStrsTailF fuel r2).map (fun p => (x :: p.1, p.2))
      else if c = ']' then some ([x], r2)
      else none
    | _ => none

/-- Parse a JSON array of strings. -/
def pStrsArr : List Char → Option (List (List Char) × List Char)
  | c :: c2 :: r2 =>
    if c = '[' then
      (if c2 = ']' then some ([], r2) else pStrsTailF (c2 :: r2).length (c2 :: r2))
    else none
  | _ => none

/-- Parse one question object of the export format: the `text` and `answer`
strings, then either the free tag or the `choices` array and multiple tag. -/
def pQuestion (s : List Char) : Option (Question × List Char) :=
  (litS "\x7b" s).bind fun r0 =>
  (litS "\"text\":" r0).bind fun r1 =>
  (pJStr r1).bind fun pt =>
  (litS ",\"answer\":" pt.2).bind fun r3 =>
  (pJStr r3).bind fun pa =>
  match litS ",\"type\":\"free\"\x7d" pa.2 with
  | some r5 => some (Question.free (String.mk pt.1) (String.mk pa.1), r5)
  | none =>
    (litS ",\"choices\":" pa.2).bind fun r5 =>
    (pStrsArr r5).bind fun pc =>
    (litS ",\"type\":\"multiple\"\x7d" pc.2).bind fun r7 =>
    some (Question.multiple (String.mk pt.1) (String.mk pa.1) (pc.1.map String.mk), r7)

/-- Parse the elements of a nonempty question array (fuel as above). -/
def pQsTailF : Nat → List Char → Option (List Question × List Char)
  | 0, _ => none
  | fuel + 1, s =>
    match pQuestion s with
    | some (q, c :: r2) =>
      if c = ',' then (pQsTailF fuel r2).map (fun p => (q :: p.1, p.2))
      else if c = ']' then some ([q], r2)
      else none
    | _ => none

/-- Parse the JSON array of questions. -/
def pQsArr : List Char → Option (List Question × List Char)
  | c :: c2 :: r2 =>
    if c = '[' then
      (if c2 = ']' then some ([], r2) else pQsTailF (c2 :: r2).length (c2 :: r2))
    else none
  | _ => none

/-- Model of the import path's `JSON.parse` (line 109) restricted to the
quiz document shape the program itself exports and then uses as a Quiz:
the title string and the array of tagged questions, with no leftover
input. -/
def pQuiz (s : List Char) : Option Quiz :=
  (litS "\x7b\"title\":" s).bind fun r1 =>
  (pJStr r1).bind fun pt =>
  (litS ",\"questions\":" pt.2).bind fun r3 =>
  (pQsArr r3).bind fun pq =>
  (litS "\x7d" pq.2).bind fun r5 =>
  if r5 = [] then some { title := String.mk pt.1, questions := pq.1 } else none

/-- UTF-8 encoding of one scalar value (`Buffer.from(json)` encodes the
JSON text as UTF-8 bytes). -/
def utf8EncodeChar (c : Char) : List Nat :=
  let n := c.toNat
  if n < 128 then [n]
  else if n < 2048 then [192 + n / 64, 128 + n % 64]
  else if n < 65536 then [224 + n / 4096, 128 + n / 64 % 64, 128 + n % 64]
  else [240 + n / 262144, 128 + n / 4096 % 64, 128 + n / 64 % 64, 128 + n % 64]

/-- UTF-8 encoding of a character sequence as a byte (Nat) list. -/
def utf8Encode (s : List Char) : List Nat := (s.map utf8EncodeChar).flatten

/-- Decode one UTF-8 sequence from its lead byte and the remaining bytes,
returning the scalar value and the rest (on the byte shapes the encoder
produces). -/
def utf8DecodeOne (b : Nat) (r : List Nat) : Option (Nat × List Nat) :=
  if b < 128 then some (b, r)
  else if b < 224 then
    match r with
    | b2 :: r2 => some ((b - 192) * 64 + (b2 - 128), r2)
    | [] => none
  else if b < 240 then
    match r with
    | b2 :: b3 :: r2 => some (((b - 224) * 64 + (b2 - 128)) * 64 + (b3 - 128), r2)
    | _ => none
  else
    match r with
    | b2 :: b3 :: b4 :: r2 =>
      some ((((b - 240) * 64 + (b2 - 128)) * 64 + (b3 - 128)) * 64 + (b4 - 128), r2)
    | _ => none

/-- Fuelled UTF-8 decoding loop; one unit of fuel per decoded character. -/
def utf8DecodeF : Nat → List Nat → Option (List Char)
  | 0, _ => none
  | _ + 1, [] => some []
  | fuel + 1, b :: r =>
    match utf8DecodeOne b r with
    | some (v, r2) => (utf8DecodeF fuel r2).map (fun cs => Char.ofNat v :: cs)
    | none => none

/-- UTF-8 decoding (the string coercion applied to the uploaded buffer
before parsing); the fuel is instantiated with the input length, which
always suffices. -/
def utf8Decode (bs : List Nat) : Option (List Char) := utf8DecodeF (bs.length + 1) bs

/-- Character of one base64 digit (the standard alphabet). -/
def e64 (n : Nat) : Char :=
  if n < 26 then Char.ofNat (65 + n)
  else if n < 52 then Char.ofNat (97 + (n - 26))
  else if n < 62 then Char.ofNat (48 + (n - 52))
  else if n = 62 then '+'
  else '/'

/-- Value of one base64 character. -/
def d64 (c : Char) : Option Nat :=
  if 65 ≤ c.toNat ∧ c.toNat ≤ 90 then some (c.toNat - 65)
  else if 97 ≤ c.toNat ∧ c.toNat ≤ 122 then some (c.toNat - 71)
  else if 48 ≤ c.toNat ∧ c.toNat ≤ 57 then some (c.toNat + 4)
  else if c = '+' then some 62
  else if c = '/' then some 63
  else none

/-- Base64 encoding with padding, as `Buffer.prototype.toString("base64")`
produces (line 136). -/
def b64encode : List Nat → List Char
  | [] => []
  | [a] => [e64 (a / 4), e64 (a % 4 * 16), '=', '=']
  | [a, b] => [e64 (a / 4), e64 (a % 4 * 16 + b / 16), e64 (b % 16 * 4), '=']
  | a :: b :: c :: rest =>
    e64 (a / 4) :: e64 (a % 4 * 16 + b / 16) :: e64 (b % 16 * 4 + c / 64) :: e64 (c % 64) ::
      b64encode rest

/-- Base64 decoding (the browser decodes the data: URI payload back into
the saved file's bytes). -/
def b64decode : List Char → Option (List Nat)
  | [] => some []
  | c1 :: c2 :: c3 :: c4 :: rest =>
    match d64 c1, d64 c2 with
    | some s1, some s2 =>
      if c3 = '=' then
        if c4 = '=' ∧ rest = [] ∧ s2 % 16 = 0 then some [s1 * 4 + s2 / 16] else none
      else
        match d64 c3 with
        | some s3 =>
          if c4 = '=' then
            if rest = [] ∧ s3 % 4 = 0 then some [s1 * 4 + s2 / 16, s2 % 16 * 16 + s3 / 4]
            else none
          else
            match d64 c4 with
            | some s4 =>
              (b64decode rest).map (fun tl =>
                (s1 * 4 + s2 / 16) :: (s2 % 16 * 16 + s3 / 4) :: (s3 % 4 * 64 + s4) :: tl)
            | none => none
        | none => none
    | _, _ => none
  | _ => none

/-- Embeds `jsonToDataURI` (lines 134-137): the base64 data: URI of the
UTF-8 bytes of a JSON string. -/
def jsonToDataURI (json : List Char) : List Char :=
  sLit "data:application/json;base64," ++ b64encode (utf8Encode json)

/-- The export form of a quiz: the `downloadLink` built on line 122. -/
def exportQuiz (q : Quiz) : List Char := jsonToDataURI (quizJson q)

/-- Bytes of the file a browser saves when the user downloads the data:
URI (strip the header, decode the base64 payload). -/
def dataURIBytes (uri : List Char) : Option (List Nat) :=
  (litS "data:application/json;base64," uri).bind b64decode

/-- The import path of `/load` (line 109) on an uploaded file's bytes:
decode the buffer to text and `JSON.parse` it as the quiz document. -/
def importQuiz (fileBytes : List Nat) : Option Quiz :=
  (utf8Decode fileBytes).bind pQuiz

/-- JSON values, as `JSON.parse` produces them for the `/load` route. -/
inductive JsonVal where
  | null
  | bool (b : Bool)
  | num (n : Int)
  | str (s : List Char)
  | arr (xs : List JsonVal)
  | obj (fields : List (List Char × JsonVal))

/-- Skip JSON insignificant whitespace. -/
def skipWs (s : List Char) : List Char :=
  s.dropWhile (fun c => c == ' ' || c == '\t' || c == '\n' || c == '\r')

/-- True when a number continues with a fraction or exponent; the model
restricts JSON numbers to integers, which is all the quiz flow produces. -/
def fracTail : List Char → Bool
  | c :: _ => c == '.' || c == 'e' || c == 'E'
  | [] => false

/-- Parse a JSON integer literal. -/
def jNum (s : List Char) : Option (JsonVal × List Char) :=
  match s with
  | '-' :: r =>
    let ds := r.takeWhile (fun c => c.isDigit)
    let rest := r.dropWhile (fun c => c.isDigit)
    if ds = [] then none
    else if fracTail rest then none
    else some (.num (-(natOfDigits ds : Int)), rest)
  | _ =>
    let ds := s.takeWhile (fun c => c.isDigit)
    let rest := s.dropWhile (fun c => c.isDigit)
    if ds = [] then none
    else if fracTail rest then none
    else some (.num ((natOfDigits ds : Int)), rest)

mutual

/-- Model of `JSON.parse`'s value grammar (fuelled recursive descent; the
top-level caller supplies the input length as fuel, which always
suffices). -/
def jVal : Nat → List Char → Option (JsonVal × List Char)
  | 0, _ => none
  | fuel + 1, s =>
    match skipWs s with
    | [] => none
    | c :: r =>
      if c = '\x7b' then
        match skipWs r with
        | c2 :: r2 =>
          if c2 = '\x7d' then some (.obj [], r2)
          else (jMembers fuel (c2 :: r2)).map (fun p => (.obj p.1, p.2))
        | [] => none
      else if c = '[' then
        match skipWs r with
        | c2 :: r2 =>
          if c2 = ']' then some (.arr [], r2)
          else (jElems fuel (c2 :: r2)).map (fun p => (.arr p.1, p.2))
        | [] => none
      else if c = '"' then (pstr r).map (fun p => (.str p.1, p.2))
      else if c = 't' then (litS "rue" r).map (fun r2 => (JsonVal.bool true, r2))
      else if c = 'f' then (litS "alse" r).map (fun r2 => (JsonVal.bool false, r2))
      else if c = 'n' then (litS "ull" r).map (fun r2 => (JsonVal.null, r2))
      else jNum (c :: r)

/-- Members of a nonempty JSON object. -/
def jMembers : Nat → List Char → Option (List (List Char × JsonVal) × List Char)
  | 0, _ => none
  | fuel + 1, s =>
    match skipWs s with
    | c :: r =>
      if c = '"' then
        match pstr r with
        | some (k, r1) =>
          match skipWs r1 with
          | c2 :: r2 =>
            if c2 = ':' then
              match jVal fuel r2 with
              | some (v, r3) =>
                match skipWs r3 with
                | c3 :: r4 =>
                  if c3 = ',' then (jMembers fuel r4).map (fun p => ((k, v) :: p.1, p.2))
                  else if c3 = '\x7d' then some ([(k, v)], r4)
                  else none
                | [] => none
              | none => none
            else none
          | [] => none
        | none => none
      else none
    | [] => none

/-- Elements of a nonempty JSON array. -/
def jElems : Nat → List Char → Option (List JsonVal × List Char)
  | 0, _ => none
  | fuel + 1, s =>
    match jVal fuel s with
    | some (v, r) =>
      match skipWs r with
      | c :: r2 =>
        if c = ',' then (jElems fuel r2).map (fun p => (v :: p.1, p.2))
        else if c = ']' then some ([v], r2)
        else none
      | [] => none
    | none => none
end

/-- Model of `JSON.parse` on a whole document: a SyntaxError becomes
`.error .parseError`. -/
def jsonParseTop (s : List Char) : Except JsError JsonVal :=
  match jVal (s.length + 1) s with
  | some (v, rest) => if skipWs rest = [] then .ok v else .error .parseError
  | none => .error .parseError

/-- Outcome of one run of the `/load` route (lines 107-111) after the
upload resumption. `abort` models an exception escaping the async handler
(an unhandled rejection: the user gets no response at all); `proceed` means
`manageQuiz(res, quiz)` is entered with the parsed value. -/
inductive LoadOutcome where
  | abort (e : JsError)
  | proceed (v : JsonVal)

/-- Embeds lines 107-111: `JSON.parse(req.files.file.data)` runs with no
try/catch and its result flows into `manageQuiz` with no shape validation
of any kind between. -/
def loadHandler (file : List Char) : LoadOutcome :=
  match jsonParseTop file with
  | .error e => .abort e
  | .ok v => .proceed v

example : playRound { title := "T", questions := [] } [] = some (.error .typeError) := rfl

example : playRound { title := "T", questions := [.free "Capital of France?" "Paris"] }
    [(.undef, 3)] = some (.error .typeError) := rfl

example : playRound { title := "T", questions := [.free "Capital of France?" "Paris"] }
    [(.str "paris", 3)] = some (.ok { answersCorrect := 1, totalTime := 3, totalQuestions := 1 }) := rfl

example : playRound { title := "T", questions := [.multiple "Q" "2" ["a", "b", "c", "d", "e"]] }
    [(.undef, 7)] = some (.ok { answersCorrect := 0, totalTime := 7, totalQuestions := 1 }) := rfl

example : runCount regInit "a" [.suspend "a", .resume "a", .resume "a"] = 1 := rfl

example : handleContinue regInit "constructor" = (regInit, .inherited) := rfl

example : handleContinue regInit "gone" = (regInit, .expired) := rfl

theorem evictLoop_mem {us cs : List String} {t : String}
    (h : t ∈ (evictLoop us cs).2) : t ∈ cs := by
  induction us generalizing cs with
  | nil => simpa [evictLoop] using h
  | cons u rest ih =>
    rw [evictLoop] at h
    split at h
    · exact List.mem_of_mem_erase (ih h)
    · simpa using h

theorem evictLoop_nodup {us cs : List String} (h : cs.Nodup) :
    (evictLoop us cs).2.Nodup := by
  induction us generalizing cs with
  | nil => simpa [evictLoop] using h
  | cons u rest ih =>
    rw [evictLoop]
    split
    · exact ih (h.erase u)
    · exact h

theorem sendSuspend_mem {s : RegState} {u t : String}
    (h : t ∈ (sendSuspend s u).continuations) : t ∈ s.continuations ∨ t = u := by
  simp only [sendSuspend] at h
  split at h
  · exact Or.inl (evictLoop_mem h)
  · rcases List.mem_append.mp h with h1 | h1
    · exact Or.inl (evictLoop_mem h1)
    · exact Or.inr (List.mem_singleton.mp h1)

theorem sendSuspend_nodup {s : RegState} {u : String}
    (h : s.continuations.Nodup) : (sendSuspend s u).continuations.Nodup := by
  simp only [sendSuspend]
  split
  · exact evictLoop_nodup h
  · rename_i hnot
    refine (List.nodup_append).mpr ⟨evictLoop_nodup h, List.nodup_singleton u, ?_⟩
    intro a ha hb
    rw [List.mem_singleton] at hb
    exact hnot (hb ▸ ha)

theorem handleContinue_own {s : RegState} {u : String} (hu : u ∈ s.continuations) :
    handleContinue s u = ({ s with continuations := s.continuations.erase u }, .invoked) := by
  simp [handleContinue, hu]

theorem handleContinue_proto {s : RegState} {u : String} (hu : u ∉ s.continuations)
    (hp : u ∈ protoKeys) : handleContinue s u = (s, .inherited) := by
  simp [handleContinue, hu, hp]

theorem handleContinue_expired {s : RegState} {u : String} (hu : u ∉ s.continuations)
    (hp : u ∉ protoKeys) : handleContinue s u = (s, .expired) := by
  simp [handleContinue, hu, hp]

theorem runCount_le_aux (es : List RegEvent) (t : String) :
    ∀ s : RegState, s.continuations.Nodup →
      runCount s t es ≤ mints t es + (if t ∈ s.continuations then 1 else 0) := by
  induction es with
  | nil => intro s _; simp [runCount, mints]
  | cons e es ih =>
    intro s hnd
    cases e with
    | suspend u =>
      have h1 := ih (sendSuspend s u) (sendSuspend_nodup hnd)
      have h2 : (if t ∈ (sendSuspend s u).continuations then 1 else 0) ≤
          (if u = t then 1 else 0) + (if t ∈ s.continuations then 1 else 0) := by
        by_cases hm : t ∈ (sendSuspend s u).continuations
        · rcases sendSuspend_mem hm with hin | heq
          · rw [if_pos hm, if_pos hin]; omega
          · rw [if_pos hm, if_pos heq.symm]; omega
        · rw [if_neg hm]; omega
      simp only [runCount, mints]
      omega
    | resume u =>
      simp only [runCount, mints]
      by_cases hu : u ∈ s.continuations
      · rw [handleContinue_own hu]
        dsimp only
        have h1 := ih { s with continuations := s.continuations.erase u } (hnd.erase u)
        by_cases het : u = t
        · subst het
          have hni : u ∉ s.continuations.erase u := hnd.not_mem_erase
          rw [if_neg hni] at h1
          rw [if_pos ⟨rfl, rfl⟩, if_pos hu]
          omega
        · rw [if_neg (fun h => het h.2)]
          have hmem : t ∈ s.continuations.erase u ↔ t ∈ s.continuations :=
            List.mem_erase_of_ne (fun hh => het hh.symm)
          by_cases hin : t ∈ s.continuations
          · rw [if_pos (hmem.mpr hin)] at h1
            rw [if_pos hin]
            omega
          · rw [if_neg (fun hh => hin (hmem.mp hh))] at h1
            rw [if_neg hin]
            omega
      · have h1 := ih s hnd
        by_cases hp : u ∈ protoKeys
        · rw [handleContinue_proto hu hp,
            if_neg (fun h => ContinueOutcome.noConfusion h.1)]
          dsimp only
          omega
        · rw [handleContinue_expired hu hp,
            if_neg (fun h => ContinueOutcome.noConfusion h.1)]
          dsimp only
          omega

/-- C1: for every token minted by a suspension (minted once, as uuidv4 ids
are fresh), at most one request to `/continue/:continuationID` bearing that
token ever invokes the stored continuation; the handler deletes the entry
before invoking it, so every later request with the same token finds no
entry and takes the expired branch. -/
theorem continuation_resumed_at_most_once (es : List RegEvent) (t : String)
    (hfresh : mints t es ≤ 1) : runCount regInit t es ≤ 1 := by
  have h := runCount_le_aux es t regInit (by simp [regInit])
  have h2 : (if t ∈ regInit.continuations then 1 else 0) = 0 := by simp [regInit]
  omega

theorem continuation_resumed_at_most_once_witness :
    mints "a" [.suspend "a", .resume "a", .resume "a"] ≤ 1 ∧
    runCount regInit "a" [.suspend "a", .resume "a", .resume "a"] ≤ 1 :=
  ⟨by decide, continuation_resumed_at_most_once _ "a" (by decide)⟩

/-- C9 counterexample: the token "constructor" is absent (never minted, the
registry is empty), yet the request does not take the expired branch: the
lookup finds `Object.prototype.constructor`, which is not `undefined`, so
the handler invokes that inherited value and never sends the expired/invalid
notice. -/
theorem resume_absent_constructor_not_expired :
    handleContinue regInit "constructor" = (regInit, .inherited) ∧
    ContinueOutcome.inherited ≠ ContinueOutcome.expired :=
  ⟨rfl, by decide⟩

/-- C9 amended: a resumption attempt with an absent token leaves the
registry (key set and `uuids` eviction list) unchanged; it reports the
expired/invalid notice unless the token names a property inherited from
`Object.prototype` (such as "constructor"), in which case the handler takes
the defined branch and invokes the inherited value instead of sending the
notice — still without mutating the registry. -/
theorem resume_absent_no_effect (s : RegState) (tok : String)
    (habs : tok ∉ s.continuations) :
    (handleContinue s tok).1 = s ∧
    (tok ∉ protoKeys → handleContinue s tok = (s, .expired)) ∧
    (tok ∈ protoKeys → (handleContinue s tok).2 = .inherited) := by
  refine ⟨?_, fun hp => ?_, fun hp => ?_⟩
  · by_cases hp : tok ∈ protoKeys
    · rw [handleContinue_proto habs hp]
    · rw [handleContinue_expired habs hp]
  · rw [handleContinue_expired habs hp]
  · rw [handleContinue_proto habs hp]

theorem resume_absent_no_effect_witness :
    ("gone" ∉ regInit.continuations) ∧
    handleContinue regInit "gone" = (regInit, .expired) :=
  ⟨by decide, (resume_absent_no_effect regInit "gone" (by decide)).2.1 (by decide)⟩

set_option maxRecDepth 40000 in
/-- C2: the eviction policy is never executed. Because line 18 indexes
`push` instead of calling it, `uuids` stays empty, the `while` loop of
lines 21-24 never runs, and after 101 suspensions the continuation mapping
holds 101 entries — above `MAX_CONTINUATIONS = 100` — while the oldest
token is still resumable, contradicting the claimed capacity bound and
FIFO eviction (the accompanying comment on line 20 documents the intended
bound). -/
theorem eviction_never_happens :
    floodState.continuations.length = 101 ∧
    floodState.uuids = [] ∧
    MAX_CONTINUATIONS = 100 ∧
    (handleContinue floodState (String.mk [Char.ofNat 65])).2 = .invoked := by decide

theorem markFree_str (a s : String) :
    markFree (.str a) (.str s) = .ok (lowerStr a == lowerStr s) := rfl

/-- C7: free-text marking is a case-insensitive exact string match: it
succeeds exactly when the stored answer and the submission agree after
lowercasing, and the spec's two examples evaluate as stated. -/
theorem mark_free_case_insensitive :
    (∀ a s : String, markFree (.str a) (.str s) = .ok true ↔ lowerStr a = lowerStr s) ∧
    markFree (.str "Paris") (.str "paris") = .ok true ∧
    markFree (.str "Paris") (.str "pariss") = .ok false := by
  refine ⟨fun a s => ?_, rfl, rfl⟩
  rw [markFree_str]
  simp

/-- C8: multiple-choice marking is loose `==` comparison of the stored
correct index with the submission: equal numbers match, a string submission
is matched through `ToNumber` normalization, and the spec's three examples
evaluate as stated. -/
theorem mark_multiple_index_equality :
    markMultiple (.num 2) (.num 2) = .ok true ∧
    markMultiple (.num 2) (.str "2") = .ok true ∧
    markMultiple (.num 2) (.num 3) = .ok false ∧
    (∀ i j : Int, markMultiple (.num i) (.num j) = .ok (decide (i = j))) ∧
    (∀ (i : Int) (s : String),
      markMultiple (.num i) (.str s) = .ok (decide (jsToNumber s = some i))) := by
  refine ⟨rfl, rfl, rfl, fun i j => ?_, fun i s => ?_⟩
  · by_cases h : i = j <;> simp [markMultiple, looseEq, h]
  · cases h : jsToNumber s with
    | none => simp [markMultiple, looseEq, h]
    | some m =>
      simp only [markMultiple, looseEq, h]
      by_cases hmi : i = m
      · subst hmi; simp
      · have hmi2 : m ≠ i := fun hh => hmi hh.symm
        simp [hmi, hmi2]

/-- C10: when a quiz-overview resumption carries `addQuestion` together
with a `type` that is not a registered question-type name, the step is not
an idle refresh: `questionTypes[type]` yields no variant record and the
`create` dispatch on line 126 throws, aborting that authoring step. -/
theorem unregistered_type_aborts (t : String) (b : Bool)
    (h : List.lookup t questionTypes = none) :
    manageQuizStep { addQuestion := true, type := t, playQuiz := b } = .abort .typeError := by
  simp [manageQuizStep, h]

theorem unregistered_type_aborts_witness :
    List.lookup "bogus" questionTypes = none ∧
    manageQuizStep { addQuestion := true, type := "bogus", playQuiz := false } =
      .abort .typeError :=
  ⟨rfl, unregistered_type_aborts "bogus" false rfl⟩

/-- C3: playing a quiz whose question sequence is empty does not reach the
finished summary: `stats` is empty and line 169's
`stats.map(stat => stat.correct).reduce(add)` throws a TypeError ("Reduce
of empty array with no initial value"), so the round aborts instead of
rendering a summary with totalQuestions = 0 and answersCorrect = 0. -/
theorem empty_quiz_play_throws :
    playRound { title := "Geo", questions := [] } [] = some (.error .typeError) ∧
    summarize [] = .error .typeError :=
  ⟨rfl, rfl⟩

/-- C4 counterexample: resuming a question presentation of a free-text
question with the answer field absent does abort the play procedure:
line 85 evaluates `answer.toLowerCase()` on `undefined` and throws a
TypeError, so the submission is never evaluated as incorrect. -/
theorem missing_answer_aborts_free_text :
    playRound { title := "T", questions := [.free "Capital of France?" "Paris"] }
      [(.undef, 3)] = some (.error .typeError) ∧
    markFree (.str "Paris") .undef = .error .typeError :=
  ⟨rfl, rfl⟩

/-- C4 amended: a missing expected answer field is passed into the
variant's mark function; for the multiple-choice variant the loose
comparison evaluates it as incorrect (correct = false) without aborting,
but for the free-text variant `undefined.toLowerCase()` throws a TypeError
and aborts that play step. -/
theorem missing_answer_marking (title t a : String) (cs : List String) (rt : Nat) :
    playRound { title := title, questions := [.multiple t a cs] } [(.undef, rt)] =
      some (.ok { answersCorrect := 0, totalTime := rt, totalQuestions := 1 }) ∧
    markFree (.str a) .undef = .error .typeError :=
  ⟨rfl, rfl⟩

example : quizJson { title := "Geo", questions := [.free "Capital of France?" "Paris"] } =
    sLit "\x7b\"title\":\"Geo\",\"questions\":[\x7b\"text\":\"Capital of France?\",\"answer\":\"Paris\",\"type\":\"free\"\x7d]\x7d" := rfl

example : pJStr (strJson "a\"b\\c" ++ sLit "rest") = some (sLit "a\"b\\c", sLit "rest") := rfl

example : pJStr (strJson (String.mk [Char.ofNat 7]) ++ [']']) =
    some ([Char.ofNat 7], [']']) := rfl

theorem lit_append : ∀ (p s : List Char), lit p (p ++ s) = some s
  | [], _ => rfl
  | c :: ps, s => by
    have h : lit (c :: ps) ((c :: ps) ++ s) = if c = c then lit ps (ps ++ s) else none := rfl
    rw [h, if_pos rfl, lit_append ps s]

theorem litS_append (pat : String) (s : List Char) : litS pat (sLit pat ++ s) = some s :=
  lit_append pat.data s

theorem hexVal_hexDig (n : Nat) (h : n < 16) : hexVal (hexDig n) = some n := by
  interval_cases n <;> decide

theorem pstr_unicode (h3 h4 : Char) (a b : Nat) (rest : List Char)
    (e3 : hexVal h3 = some a) (e4 : hexVal h4 = some b) :
    pstr ('\\' :: 'u' :: '0' :: '0' :: h3 :: h4 :: rest) =
      consFst (Char.ofNat (a * 16 + b)) (pstr rest) := by
  have h0 : hexVal '0' = some 0 := rfl
  rw [pstr.eq_def]
  simp [h0, e3, e4]

theorem pstr_escaped (e u : Char) (rest : List Char) (hu : ¬e = 'u')
    (he : unescapeChar e = some u) :
    pstr ('\\' :: e :: rest) = consFst u (pstr rest) := by
  rw [pstr.eq_def]
  simp [hu, he]

theorem pstr_plain (c : Char) (rest : List Char) (h1 : ¬c = '"') (h2 : ¬c = '\\') :
    pstr (c :: rest) = consFst c (pstr rest) := by
  rw [pstr.eq_def]
  simp [h1, h2]

theorem pstr_quote (t : List Char) : pstr ('"' :: t) = some ([], t) := by
  rw [pstr.eq_def]
  simp

theorem pJStr_quote (r : List Char) : pJStr ('"' :: r) = pstr r := by
  rw [pJStr.eq_def]
  simp

theorem pstr_escChar (c : Char) (rest : List Char) :
    pstr (escChar c ++ rest) = consFst c (pstr rest) := by
  by_cases h1 : c = '"'
  · subst h1
    rw [show escChar '"' = ['\\', '"'] from rfl]
    simp only [List.cons_append, List.nil_append]
    exact pstr_escaped '"' '"' rest (by decide) rfl
  · by_cases h2 : c = '\\'
    · subst h2
      rw [show escChar '\\' = ['\\', '\\'] from rfl]
      simp only [List.cons_append, List.nil_append]
      exact pstr_escaped '\\' '\\' rest (by decide) rfl
    · by_cases h3 : c = Char.ofNat 8
      · subst h3
        rw [show escChar (Char.ofNat 8) = ['\\', 'b'] from rfl]
        simp only [List.cons_append, List.nil_append]
        exact pstr_escaped 'b' (Char.ofNat 8) rest (by decide) rfl
      · by_cases h4 : c = Char.ofNat 9
        · subst h4
          rw [show escChar (Char.ofNat 9) = ['\\', 't'] from rfl]
          simp only [List.cons_append, List.nil_append]
          exact pstr_escaped 't' (Char.ofNat 9) rest (by decide) rfl
        · by_cases h5 : c = Char.ofNat 10
          · subst h5
            rw [show escChar (Char.ofNat 10) = ['\\', 'n'] from rfl]
            simp only [List.cons_append, List.nil_append]
            exact pstr_escaped 'n' (Char.ofNat 10) rest (by decide) rfl
          · by_cases h6 : c = Char.ofNat 12
            · subst h6
              rw [show escChar (Char.ofNat 12) = ['\\', 'f'] from rfl]
              simp only [List.cons_append, List.nil_append]
              exact pstr_escaped 'f' (Char.ofNat 12) rest (by decide) rfl
            · by_cases h7 : c = Char.ofNat 13
              · subst h7
                rw [show escChar (Char.ofNat 13) = ['\\', 'r'] from rfl]
                simp only [List.cons_append, List.nil_append]
                exact pstr_escaped 'r' (Char.ofNat 13) rest (by decide) rfl
              · by_cases h8 : c.toNat < 32
                · have hesc : escChar c =
                      ['\\', 'u', '0', '0', hexDig (c.toNat / 16), hexDig (c.toNat % 16)] := by
                    simp only [escChar, if_neg h1, if_neg h2, if_neg h3, if_neg h4,
                      if_neg h5, if_neg h6, if_neg h7, if_pos h8]
                  rw [hesc]
                  simp only [List.cons_append, List.nil_append]
                  rw [pstr_unicode _ _ _ _ rest (hexVal_hexDig _ (by omega))
                    (hexVal_hexDig _ (by omega))]
                  have harith : c.toNat / 16 * 16 + c.toNat % 16 = c.toNat := by omega
                  rw [harith, Char.ofNat_toNat]
                · have hesc : escChar c = [c] := by
                    simp only [escChar, if_neg h1, if_neg h2, if_neg h3, if_neg h4,
                      if_neg h5, if_neg h6, if_neg h7, if_neg h8]
                  rw [hesc]
                  simp only [List.cons_append, List.nil_append]
                  exact pstr_plain c rest h1 h2

theorem pstr_escStr : ∀ (x t : List Char), pstr (escStr x ++ '"' :: t) = some (x, t)
  | [], t => by
    rw [show escStr [] = [] from rfl, List.nil_append, pstr_quote]
  | c :: cs, t => by
    show pstr ((escChar c ++ escStr cs) ++ '"' :: t) = _
    rw [List.append_assoc, pstr_escChar, pstr_escStr cs t]
    rfl

theorem pJStr_rt (s : String) (t : List Char) : pJStr (strJson s ++ t) = some (s.data, t) := by
  show pJStr (('"' :: (escStr s.data ++ ['"'])) ++ t) = _
  rw [List.cons_append, pJStr_quote, List.append_assoc, List.singleton_append, pstr_escStr]

theorem option_bind_some {α β : Type} (a : α) (f : α → Option β) :
    (some a).bind f = f a := rfl

theorem strsJson_length_ge : ∀ cs : List String, cs.length ≤ (strsJson cs).length
  | [] => by simp [strsJson]
  | x :: cs => by
    have h := strsJson_length_ge cs
    by_cases hcs : cs.isEmpty <;> simp [strsJson, strJson, hcs] <;> omega

theorem qsJson_length_ge : ∀ qs : List Question, qs.length ≤ (qsJson qs).length
  | [] => by simp [qsJson]
  | q :: qs => by
    have h := qsJson_length_ge qs
    by_cases hqs : qs.isEmpty <;> simp [qsJson, qJson, hqs] <;> omega

theorem pStrsTailF_rt (cs : List String) : ∀ (x : String) (t : List Char) (fuel : Nat),
    cs.length < fuel →
    pStrsTailF fuel (strsJson (x :: cs) ++ (']' :: t)) =
      some ((x :: cs).map String.data, t) := by
  induction cs with
  | nil =>
    intro x t fuel h
    cases fuel with
    | zero => omega
    | succ f =>
      rw [show strsJson [x] = strJson x from by simp [strsJson]]
      simp only [pStrsTailF]
      rw [pJStr_rt]
      simp
  | cons y cs ih =>
    intro x t fuel h
    cases fuel with
    | zero => omega
    | succ f =>
      have hstep : strsJson (x :: y :: cs) ++ (']' :: t) =
          strJson x ++ (',' :: (strsJson (y :: cs) ++ (']' :: t))) := by
        simp [strsJson]
      rw [hstep]
      simp only [pStrsTailF]
      rw [pJStr_rt]
      simp only [if_true]
      rw [ih y t f (by simpa using Nat.lt_of_succ_lt_succ h)]
      simp

theorem pStrsArr_nonempty (c2 : Char) (r2 : List Char) (hne : ¬c2 = ']') :
    pStrsArr ('[' :: c2 :: r2) = pStrsTailF (c2 :: r2).length (c2 :: r2) := by
  simp [pStrsArr, hne]

theorem pStrsArr_rt (cs : List String) (t : List Char) :
    pStrsArr (arrJson cs ++ t) = some (cs.map String.data, t) := by
  cases cs with
  | nil =>
    rw [show arrJson [] ++ t = '[' :: ']' :: t from by simp [arrJson, strsJson]]
    simp [pStrsArr]
  | cons x cs =>
    have hshape : arrJson (x :: cs) ++ t = '[' :: (strsJson (x :: cs) ++ (']' :: t)) := by
      simp [arrJson]
    obtain ⟨W, hW⟩ : ∃ W, strsJson (x :: cs) ++ (']' :: t) = '"' :: W :=
      ⟨_, by simp [strsJson, strJson]; rfl⟩
    rw [hshape, hW, pStrsArr_nonempty '"' W (by decide), ← hW]
    refine pStrsTailF_rt cs x t _ ?_
    have h1 := strsJson_length_ge (x :: cs)
    simp only [List.length_append, List.length_cons] at h1 ⊢
    omega

theorem map_mk_data : ∀ cs : List String, (cs.map String.data).map String.mk = cs
  | [] => rfl
  | s :: cs => by
    show String.mk s.data :: (cs.map String.data).map String.mk = s :: cs
    rw [map_mk_data cs]

theorem pQuestion_rt (q : Question) (t : List Char) :
    pQuestion (qJson q ++ t) = some (q, t) := by
  have hbrace : ∀ X : List Char, litS "\x7b" ('\x7b' :: X) = some X := fun _ => rfl
  cases q with
  | free qt qa =>
    have hin : qJson (Question.free qt qa) ++ t =
        '\x7b' :: (sLit "\"text\":" ++ (strJson qt ++ (sLit ",\"answer\":" ++
          (strJson qa ++ (sLit ",\"type\":\"free\"\x7d" ++ t))))) := by
      simp [qJson, qJsonFields, sLit]
    rw [hin]
    simp only [pQuestion, hbrace, litS_append, option_bind_some, pJStr_rt]
  | multiple qt qa cs =>
    have hmis : ∀ X : List Char,
        litS ",\"type\":\"free\"\x7d" (sLit ",\"choices\":" ++ X) = none := fun _ => rfl
    have hin : qJson (Question.multiple qt qa cs) ++ t =
        '\x7b' :: (sLit "\"text\":" ++ (strJson qt ++ (sLit ",\"answer\":" ++
          (strJson qa ++ (sLit ",\"choices\":" ++ (arrJson cs ++
            (sLit ",\"type\":\"multiple\"\x7d" ++ t))))))) := by
      simp [qJson, qJsonFields, sLit]
    rw [hin]
    simp only [pQuestion, hbrace, litS_append, option_bind_some, pJStr_rt, hmis,
      pStrsArr_rt, map_mk_data]

theorem pQsTailF_rt (qs : List Question) : ∀ (x : Question) (t : List Char) (fuel : Nat),
    qs.length < fuel →
    pQsTailF fuel (qsJson (x :: qs) ++ (']' :: t)) = some (x :: qs, t) := by
  induction qs with
  | nil =>
    intro x t fuel h
    cases fuel with
    | zero => omega
    | succ f =>
      rw [show qsJson [x] = qJson x from by simp [qsJson]]
      simp only [pQsTailF]
      rw [pQuestion_rt]
      simp
  | cons y qs ih =>
    intro x t fuel h
    cases fuel with
    | zero => omega
    | succ f =>
      have hstep : qsJson (x :: y :: qs) ++ (']' :: t) =
          qJson x ++ (',' :: (qsJson (y :: qs) ++ (']' :: t))) := by
        simp [qsJson]
      rw [hstep]
      simp only [pQsTailF]
      rw [pQuestion_rt]
      simp only [if_true]
      rw [ih y t f (by simpa using Nat.lt_of_succ_lt_succ h)]
      simp

theorem pQsArr_nonempty (c2 : Char) (r2 : List Char) (hne : ¬c2 = ']') :
    pQsArr ('[' :: c2 :: r2) = pQsTailF (c2 :: r2).length (c2 :: r2) := by
  simp [pQsArr, hne]

theorem pQsArr_rt (qs : List Question) (t : List Char) :
    pQsArr (qsArrJson qs ++ t) = some (qs, t) := by
  cases qs with
  | nil =>
    rw [show qsArrJson [] ++ t = '[' :: ']' :: t from by simp [qsArrJson, qsJson]]
    simp [pQsArr]
  | cons x qs =>
    have hshape : qsArrJson (x :: qs) ++ t = '[' :: (qsJson (x :: qs) ++ (']' :: t)) := by
      simp [qsArrJson]
    obtain ⟨W, hW⟩ : ∃ W, qsJson (x :: qs) ++ (']' :: t) = '\x7b' :: W :=
      ⟨_, by simp [qsJson, qJson]; rfl⟩
    rw [hshape, hW, pQsArr_nonempty '\x7b' W (by decide), ← hW]
    refine pQsTailF_rt qs x t _ ?_
    have h1 := qsJson_length_ge (x :: qs)
    simp only [List.length_append, List.length_cons] at h1 ⊢
    omega

theorem pQuiz_rt (q : Quiz) : pQuiz (quizJson q) = some q := by
  obtain ⟨title, questions⟩ := q
  have hend : litS "\x7d" (sLit "\x7d") = some [] := rfl
  have hin : quizJson ⟨title, questions⟩ =
      sLit "\x7b\"title\":" ++ (strJson title ++ (sLit ",\"questions\":" ++
        (qsArrJson questions ++ sLit "\x7d"))) := by
    simp [quizJson, sLit]
  rw [hin]
  simp only [pQuiz, litS_append, option_bind_some, pJStr_rt, pQsArr_rt, hend]
  rfl

theorem char_toNat_lt (c : Char) : c.toNat < 1114112 := by
  have hvt : c.toNat = c.val.toNat := rfl
  rcases c.valid with h | h
  · rw [hvt]; omega
  · rw [hvt]; exact h.2

theorem utf8EncodeChar_cons (c : Char) : ∃ hd tl, utf8EncodeChar c = hd :: tl := by
  simp only [utf8EncodeChar]
  split_ifs <;> exact ⟨_, _, rfl⟩

theorem utf8DecodeOne_rt (c : Char) (r : List Nat) (hd : Nat) (tl : List Nat)
    (henc : utf8EncodeChar c = hd :: tl) :
    utf8DecodeOne hd (tl ++ r) = some (c.toNat, r) := by
  have hv := char_toNat_lt c
  by_cases h1 : c.toNat < 128
  · rw [show utf8EncodeChar c = [c.toNat] from by simp [utf8EncodeChar, h1]] at henc
    injection henc with hh ht
    subst hh; subst ht
    simp [utf8DecodeOne, h1]
  · by_cases h2 : c.toNat < 2048
    · rw [show utf8EncodeChar c = [192 + c.toNat / 64, 128 + c.toNat % 64] from by
        simp [utf8EncodeChar, h1, h2]] at henc
      injection henc with hh ht
      subst hh; subst ht
      have hb1 : ¬(192 + c.toNat / 64 < 128) := by omega
      have hb2 : 192 + c.toNat / 64 < 224 := by omega
      have hval : (192 + c.toNat / 64 - 192) * 64 + (128 + c.toNat % 64 - 128) = c.toNat := by
        omega
      simp [utf8DecodeOne, hb1, hb2, hval]
      all_goals omega
    · by_cases h3 : c.toNat < 65536
      · rw [show utf8EncodeChar c =
            [224 + c.toNat / 4096, 128 + c.toNat / 64 % 64, 128 + c.toNat % 64] from by
          simp [utf8EncodeChar, h1, h2, h3]] at henc
        injection henc with hh ht
        subst hh; subst ht
        have hb1 : ¬(224 + c.toNat / 4096 < 128) := by omega
        have hb2 : ¬(224 + c.toNat / 4096 < 224) := by omega
        have hb3 : 224 + c.toNat / 4096 < 240 := by omega
        have hval : ((224 + c.toNat / 4096 - 224) * 64 + (128 + c.toNat / 64 % 64 - 128)) * 64 +
            (128 + c.toNat % 64 - 128) = c.toNat := by omega
        simp [utf8DecodeOne, hb1, hb2, hb3, hval]
        all_goals omega
      · rw [show utf8EncodeChar c = [240 + c.toNat / 262144, 128 + c.toNat / 4096 % 64,
            128 + c.toNat / 64 % 64, 128 + c.toNat % 64] from by
          simp [utf8EncodeChar, h1, h2, h3]] at henc
        injection henc with hh ht
        subst hh; subst ht
        have hb1 : ¬(240 + c.toNat / 262144 < 128) := by omega
        have hb2 : ¬(240 + c.toNat / 262144 < 224) := by omega
        have hb3 : ¬(240 + c.toNat / 262144 < 240) := by omega
        have hval : (((240 + c.toNat / 262144 - 240) * 64 + (128 + c.toNat / 4096 % 64 - 128)) *
            64 + (128 + c.toNat / 64 % 64 - 128)) * 64 + (128 + c.toNat % 64 - 128) = c.toNat := by
          omega
        simp [utf8DecodeOne, hb1, hb2, hb3, hval]
        all_goals omega

theorem utf8DecodeF_rt (s : List Char) : ∀ fuel : Nat, s.length < fuel →
    utf8DecodeF fuel (utf8Encode s) = some s := by
  induction s with
  | nil =>
    intro fuel h
    cases fuel with
    | zero => omega
    | succ f => rfl
  | cons c s ih =>
    intro fuel h
    cases fuel with
    | zero => omega
    | succ f =>
      obtain ⟨hd, tl, henc⟩ := utf8EncodeChar_cons c
      rw [show utf8Encode (c :: s) = utf8EncodeChar c ++ utf8Encode s from rfl, henc,
        List.cons_append]
      simp only [utf8DecodeF]
      rw [utf8DecodeOne_rt c (utf8Encode s) hd tl henc]
      simp only []
      rw [ih f (by simpa using Nat.lt_of_succ_lt_succ h)]
      simp

theorem utf8Encode_length_ge : ∀ s : List Char, s.length ≤ (utf8Encode s).length
  | [] => by simp [utf8Encode]
  | c :: s => by
    have h := utf8Encode_length_ge s
    obtain ⟨hd, tl, henc⟩ := utf8EncodeChar_cons c
    rw [show utf8Encode (c :: s) = utf8EncodeChar c ++ utf8Encode s from rfl, henc]
    simp only [List.length_append, List.length_cons]
    omega

theorem utf8_rt (s : List Char) : utf8Decode (utf8Encode s) = some s := by
  have h := utf8Encode_length_ge s
  exact utf8DecodeF_rt s ((utf8Encode s).length + 1) (by omega)

theorem utf8EncodeChar_lt (c : Char) : ∀ b ∈ utf8EncodeChar c, b < 256 := by
  intro b hb
  have hv := char_toNat_lt c
  simp only [utf8EncodeChar] at hb
  split_ifs at hb <;>
    simp only [List.mem_cons, List.not_mem_nil, or_false] at hb
  · subst hb; omega
  · rcases hb with rfl | rfl <;> omega
  · rcases hb with rfl | rfl | rfl <;> omega
  · rcases hb with rfl | rfl | rfl | rfl <;> omega

theorem utf8Encode_lt : ∀ (s : List Char), ∀ b ∈ utf8Encode s, b < 256
  | [] => by simp [utf8Encode]
  | c :: s => by
    intro b hb
    rw [show utf8Encode (c :: s) = utf8EncodeChar c ++ utf8Encode s from rfl] at hb
    rcases List.mem_append.mp hb with h | h
    · exact utf8EncodeChar_lt c b h
    · exact utf8Encode_lt s b h

theorem d64_e64 (n : Nat) (h : n < 64) : d64 (e64 n) = some n := by
  interval_cases n <;> decide

theorem e64_ne_pad (n : Nat) (h : n < 64) : ¬e64 n = '=' := by
  interval_cases n <;> decide

theorem b64_rt : ∀ l : List Nat, (∀ x ∈ l, x < 256) → b64decode (b64encode l) = some l
  | [], _ => rfl
  | [a], h => by
    have ha : a < 256 := h a (by simp)
    rw [show b64encode [a] = [e64 (a / 4), e64 (a % 4 * 16), '=', '='] from by
      simp [b64encode]]
    rw [b64decode.eq_def]
    have h1 := d64_e64 (a / 4) (by omega)
    have h2 := d64_e64 (a % 4 * 16) (by omega)
    have h3 : a % 4 * 16 % 16 = 0 := by omega
    have h4 : a / 4 * 4 + a % 4 * 16 / 16 = a := by omega
    simp [h1, h2, h3, h4]
    all_goals omega
  | [a, b], h => by
    have ha : a < 256 := h a (by simp)
    have hb : b < 256 := h b (by simp)
    rw [show b64encode [a, b] =
        [e64 (a / 4), e64 (a % 4 * 16 + b / 16), e64 (b % 16 * 4), '='] from by
      simp [b64encode]]
    rw [b64decode.eq_def]
    have h1 := d64_e64 (a / 4) (by omega)
    have h2 := d64_e64 (a % 4 * 16 + b / 16) (by omega)
    have h3 := d64_e64 (b % 16 * 4) (by omega)
    have hne : ¬e64 (b % 16 * 4) = '=' := e64_ne_pad _ (by omega)
    have h4 : b % 16 * 4 % 4 = 0 := by omega
    have h5 : a / 4 * 4 + (a % 4 * 16 + b / 16) / 16 = a := by omega
    have h6 : (a % 4 * 16 + b / 16) % 16 * 16 + b % 16 * 4 / 4 = b := by omega
    simp [h1, h2, h3, hne, h4, h5, h6]
    all_goals omega
  | a :: b :: c :: rest, h => by
    have ha : a < 256 := h a (by simp)
    have hb : b < 256 := h b (by simp)
    have hc : c < 256 := h c (by simp)
    rw [show b64encode (a :: b :: c :: rest) =
        e64 (a / 4) :: e64 (a % 4 * 16 + b / 16) :: e64 (b % 16 * 4 + c / 64) ::
          e64 (c % 64) :: b64encode rest from by rw [b64encode]]
    rw [b64decode.eq_def]
    have h1 := d64_e64 (a / 4) (by omega)
    have h2 := d64_e64 (a % 4 * 16 + b / 16) (by omega)
    have h3 := d64_e64 (b % 16 * 4 + c / 64) (by omega)
    have h4 := d64_e64 (c % 64) (by omega)
    have hne3 : ¬e64 (b % 16 * 4 + c / 64) = '=' := e64_ne_pad _ (by omega)
    have hne4 : ¬e64 (c % 64) = '=' := e64_ne_pad _ (by omega)
    have hrec := b64_rt rest (fun x hx => h x (by simp [hx]))
    have k1 : a / 4 * 4 + (a % 4 * 16 + b / 16) / 16 = a := by omega
    have k2 : (a % 4 * 16 + b / 16) % 16 * 16 + (b % 16 * 4 + c / 64) / 4 = b := by omega
    have k3 : (b % 16 * 4 + c / 64) % 4 * 64 + c % 64 = c := by omega
    simp [h1, h2, h3, h4, hne3, hne4, hrec, k1, k2, k3]

/-- C6: round-trip of the export/import pipeline — for every quiz, building
the download data: URI from `JSON.stringify` via `jsonToDataURI`, saving
that URI's payload as a file, and loading the file through the `/load`
parse path yields a quiz deep-equal to the original (same title, same
question sequence). -/
theorem export_import_roundtrip (q : Quiz) :
    (dataURIBytes (exportQuiz q)).bind importQuiz = some q := by
  show ((litS "data:application/json;base64,"
      (sLit "data:application/json;base64," ++ b64encode (utf8Encode (quizJson q)))).bind
        b64decode).bind importQuiz = _
  rw [litS_append, option_bind_some,
    b64_rt _ (fun x hx => utf8Encode_lt (quizJson q) x hx), option_bind_some]
  show (utf8Decode (utf8Encode (quizJson q))).bind pQuiz = _
  rw [utf8_rt, option_bind_some, pQuiz_rt]

/-- C5 counterexample: the `/load` flow performs no validation. A malformed
upload ("garbage") makes `JSON.parse` throw inside the handler, which has
no try/catch — the session aborts with an unhandled rejection and the user
is shown no input-error message; and a syntactically valid upload of the
wrong shape parses fine and proceeds straight into the authoring loop as a
half-valid quiz object. -/
theorem load_no_validation :
    loadHandler (sLit "garbage") = .abort .parseError ∧
    loadHandler (sLit "\x7b\"half\":true\x7d") = .proceed (.obj [(sLit "half", .bool true)]) :=
  ⟨rfl, rfl⟩

/-- C5 amended: the `/load` route passes the outcome of `JSON.parse`
straight through: a parse failure aborts the handler with the uncaught
exception (no reported input error), and every successfully parsed value —
whatever its shape — proceeds into the authoring loop. -/
theorem load_passes_parse_through (s : List Char) :
    (∀ e, jsonParseTop s = .error e → loadHandler s = .abort e) ∧
    (∀ v, jsonParseTop s = .ok v → loadHandler s = .proceed v) := by
  constructor <;> intro x h <;> simp [loadHandler, h]

theorem load_passes_parse_through_witness :
    loadHandler (sLit "[1,") = .abort .parseError ∧
    loadHandler (sLit "[]") = .proceed (.arr []) :=
  ⟨(load_passes_parse_through (sLit "[1,")).1 .parseError rfl,
   (load_passes_parse_through (sLit "[]")).2 (.arr []) rfl⟩
